import Mathlib

/-!
# cync: the `sync` command

A shallow embedding of `cmd_sync.go` and of the parts of `main.go` it relies on.

* A Go `string` is a sequence of bytes: `GoString` is `List Nat`, each element one byte.
  `len(s)` is `List.length`, `s[i]` is indexing, `s[i:]` is `List.drop i` (guarded where the
  Go slice expression can go out of range), `+` is `++`.
* An `error` is its message; the Go value `nil` is `none`.
* `syncCmd` starts two goroutines joined by two channels with one producer and one consumer
  each.  Each stage reads its input channel in order and writes its output channel in order,
  so the sequence carried by each channel and the sequence of calls made by each stage are
  functions of the stage's input sequence; the embedding keeps one trace per stage and does
  not model how the traces of different stages interleave.
* Library routines (`url.Parse`, `filepath.Abs`, `filepath.Walk`, `path.Join`, `path.Ext`,
  `mime.TypeByExtension`, `regexp.MatchString`, `s3.PutFrom`, `os.Open`, `os.Remove`) are taken
  as parameters, or as the results they return.
-/

namespace Cync

/-- A Go string: a sequence of bytes -/
abbrev GoString := List Nat

/-- A Go error value, identified with its message -/
abbrev error := GoString

/-- The bytes of an ASCII literal -/
def ascii (s : String) : GoString := s.toList.map Char.toNat

/-- The byte of the character literal '/' -/
def slash : Nat := 47

/-- The fields of `url.URL` that `syncCmd` reads or writes -/
structure URL where
  Scheme : GoString
  Host : GoString
  Path : GoString
deriving DecidableEq, Repr

/-- The part of `os.FileInfo` that `syncCmd` reads -/
structure FileInfo where
  Size : Nat
  IsDir : Bool
deriving DecidableEq, Repr

/-- The record sent over `walkCh` and `transferCh`.  `Path` is the relative path; the closures
`Open` and `Delete` of the source capture the walked path, kept here as `walked` -/
structure file where
  Path : GoString
  Info : FileInfo
  walked : GoString
deriving DecidableEq, Repr

/-- A compiled `*regexp.Regexp`, known by its `MatchString` method -/
structure Regexp where
  MatchString : GoString → Bool

/-- The package variable `config` of `main.go` (the key fields are strings) -/
structure Config where
  AccessKey : GoString
  SecretKey : GoString
  Token : GoString
  DryRun : Bool
  Verbose : Bool
deriving DecidableEq, Repr

/-- The package variable `syncConfig` of `cmd_sync.go` -/
structure SyncConfig where
  DeleteSource : Bool
  Excludes : List Regexp

/-- One call `filepath.Walk` makes to its callback: `info` is `nil` when the entry could not
be examined, `err` is the error the walk met at `path` -/
structure WalkCall where
  path : GoString
  info : Option FileInfo
  err : Option error
deriving DecidableEq, Repr

/-- What the three fallible calls of one iteration of the uploader loop return: the error of
`f.Open()`, of `s3c.PutFrom(...)` and of `f.Delete()` (`none` is `nil`).  A result is only
looked at when the loop makes the call -/
structure Outcome where
  Open : Option error
  PutFrom : Option error
  Delete : Option error
deriving DecidableEq, Repr

/-- The library routines `syncCmd` calls -/
structure Env where
  /-- Stands for `url.Parse` -/
  Parse : GoString → Except error URL
  /-- Stands for `filepath.Abs` -/
  Abs : GoString → Except error GoString
  /-- Stands for `path.Join` on two elements -/
  Join : GoString → GoString → GoString
  /-- Stands for `path.Ext` -/
  Ext : GoString → GoString
  /-- Stands for `mime.TypeByExtension` -/
  TypeByExtension : GoString → GoString
  /-- Stands for `filepath.Walk`: the calls it makes to its callback for a given root, in order.
  The callback of `syncCmd` always returns `nil`, so the walk never stops early or skips a
  directory on its account and the calls depend on the file system alone -/
  Walk : GoString → List WalkCall

/-- The formatted lines the program prints, one constructor per format string -/
inductive Msg where
  | Usage
  | FailedParseSource (arg : GoString) (err : error)
  | FailedParseDestination (arg : GoString) (err : error)
  | SourceLocalOnly
  | FileSchemeBlankHost
  | DestinationS3Only
  | UnableAbsolute (err : error)
  | ErrorWalking (path : GoString) (err : error)
  | Transfering (s : URL) (d : URL)
  | FailedToOpen (path : GoString) (err : error)
  | FailedToTransfer (path : GoString) (err : error)
  | FailedToDelete (path : GoString)
  | Skipping (path : GoString)
deriving DecidableEq, Repr

/-- What a stage does, in order: lines written to the two streams and calls to the outside.
`PutFrom` keeps the arguments that vary (bucket, key, the record whose stream is sent, declared
size, content type); the access policy and the headers are the same in every call.  `Close`
is `rc.Close()` -/
inductive Event where
  | stdout (m : Msg)
  | stderr (m : Msg)
  | Open (f : file)
  | PutFrom (bucket : GoString) (key : GoString) (f : file) (size : Nat) (contentType : GoString)
  | Close (f : file)
  | Delete (f : file)
deriving DecidableEq, Repr

/-- The function `logError` of `main.go` -/
def logError (m : Msg) : List Event := [Event.stderr m]

/-- The function `logVerbose` of `main.go` -/
def logVerbose (config : Config) (m : Msg) : List Event :=
  if config.Verbose then [Event.stdout m] else []

/-- The prefix switch of the uploader goroutine (`cmd_sync.go` lines 112-122): the first case
has an empty body, the default case strips one leading slash and appends a slash when the
last byte is not one -/
def normalizePfx (pfx : GoString) : GoString :=
  if pfx.length = 0 ∨ (pfx.length = 1 ∧ pfx.head? = some slash) then
    pfx
  else
    let pfx1 := if pfx.head? = some slash then pfx.drop 1 else pfx
    if pfx1.getLast? ≠ some slash then pfx1 ++ [slash] else pfx1

/-- The destination key of a relative path: `dpath := prefix + f.Path` -/
def dpath (pfx : GoString) (relPath : GoString) : GoString := pfx ++ relPath


/-- What `flag.Parse` leaves behind for `parseFlags`: the values of the global flags and the
remaining positional arguments -/
structure GlobalFlags where
  awsAccessKey : GoString
  awsSecretKey : GoString
  awsToken : GoString
  d : Bool
  v : Bool
  args : List GoString
deriving DecidableEq, Repr

/-- The function `parseFlags` of `main.go`: `flagUsage` ends the process with code 1 when
there is no positional argument; a dry run forces verbose output -/
def parseFlags (fl : GlobalFlags) : Except Nat Config :=
  if fl.args.length < 1 then
    Except.error 1
  else
    let config : Config :=
      { AccessKey := fl.awsAccessKey, SecretKey := fl.awsSecretKey, Token := fl.awsToken,
        DryRun := fl.d, Verbose := fl.v }
    if config.DryRun then Except.ok { config with Verbose := true } else Except.ok config

/-- Lines 44-75 of `syncCmd`: the checks made before the pipeline starts.  An error carries the
exit code and the line printed on the error stream (`os.Exit(1)` after the usage text,
`errorExit` with code 2 otherwise); success gives `src`, `dest` and `srcPath` -/
def validate (env : Env) (args : List GoString) : Except (Nat × Msg) (URL × URL × GoString) :=
  match args with
  | arg0 :: arg1 :: _ =>
    match env.Parse arg0 with
    | Except.error err => Except.error (2, Msg.FailedParseSource arg0 err)
    | Except.ok src =>
      match env.Parse arg1 with
      | Except.error err => Except.error (2, Msg.FailedParseDestination arg1 err)
      | Except.ok dest =>
        if src.Scheme ≠ ascii "" ∧ src.Scheme ≠ ascii "file" then
          Except.error (2, Msg.SourceLocalOnly)
        else if (src.Scheme = ascii "file" ∧ src.Host ≠ ascii "")
            ∨ (dest.Scheme = ascii "file" ∧ dest.Host ≠ ascii "") then
          Except.error (2, Msg.FileSchemeBlankHost)
        else if dest.Scheme ≠ ascii "s3" then
          Except.error (2, Msg.DestinationS3Only)
        else
          match env.Abs src.Path with
          | Except.error err => Except.error (2, Msg.UnableAbsolute err)
          | Except.ok srcPath => Except.ok (src, dest, srcPath)
  | _ => Except.error (1, Msg.Usage)

/-- The slice expression `path[len(srcPath)+1:]`; `none` is the run-time panic of a slice
bound out of range -/
def relPath (srcPath : GoString) (path : GoString) : Option GoString :=
  if srcPath.length + 1 ≤ path.length then some (path.drop (srcPath.length + 1)) else none

/-- The callback given to `filepath.Walk` (lines 79-96): the lines it logs and the records it
sends on `walkCh`; `none` is a run-time panic.  It always returns `nil` to the walk -/
def walkFn (srcPath : GoString) (c : WalkCall) : Option (List Event × List file) :=
  match c.err with
  | some err => some (logError (Msg.ErrorWalking c.path err), [])
  | none =>
    match c.info with
    | none => none
    | some info =>
      if !info.IsDir then
        match relPath srcPath c.path with
        | none => none
        | some rel => some ([], [{ Path := rel, Info := info, walked := c.path }])
      else
        some ([], [])

/-- The walker goroutine (lines 78-98) over the calls of the walk: its trace and the
sequence it sends on `walkCh` -/
def walker (srcPath : GoString) : List WalkCall → Option (List Event × List file)
  | [] => some ([], [])
  | c :: cs =>
    match walkFn srcPath c with
    | none => none
    | some (log, sent) =>
      match walker srcPath cs with
      | none => none
      | some (logs, files) => some (log ++ logs, sent ++ files)

/-- The inner loop of lines 162-168: `skip` after ranging over the exclude patterns, leaving
at the first match -/
def skip : List Regexp → GoString → Bool
  | [], _ => false
  | e :: es, p => if e.MatchString p then true else skip es p

/-- The loop over `walkCh` run by `syncCmd` itself (lines 161-175): its trace and the
sequence it sends on `transferCh` -/
def forward (config : Config) (syncConfig : SyncConfig) : List file → List Event × List file
  | [] => ([], [])
  | f :: fs =>
    let rest := forward config syncConfig fs
    if skip syncConfig.Excludes f.Path then
      (logVerbose config (Msg.Skipping f.Path) ++ rest.1, rest.2)
    else
      (rest.1, f :: rest.2)

/-- The content type of lines 142-146 -/
def contentTypeOf (env : Env) (f : file) : GoString :=
  let contentType := env.TypeByExtension (env.Ext f.Path)
  if contentType = ascii "" then ascii "application/binary" else contentType

/-- One iteration of the uploader loop (lines 126-156) for the record `f`, given what its
fallible calls return -/
def uploadFile (env : Env) (config : Config) (syncConfig : SyncConfig) (src dest : URL)
    (pfx : GoString) (f : file) (o : Outcome) : List Event :=
  let key := dpath pfx f.Path
  (if config.Verbose then
    logVerbose config
      (Msg.Transfering { src with Path := env.Join src.Path f.Path } { dest with Path := key })
  else []) ++
  (if !config.DryRun then
    [Event.Open f] ++
    (match o.Open with
    | some err => logVerbose config (Msg.FailedToOpen f.Path err)
    | none =>
      [Event.PutFrom dest.Host key f f.Info.Size (contentTypeOf env f), Event.Close f] ++
      (match o.PutFrom with
      | some err => logError (Msg.FailedToTransfer f.Path err)
      | none =>
        if syncConfig.DeleteSource then
          [Event.Delete f] ++
          (match o.Delete with
          | some _ => logError (Msg.FailedToDelete f.Path)
          | none => [])
        else []))
  else [])

/-- The uploader goroutine (lines 104-159) over the sequence received on `transferCh`,
each record paired with what its calls return -/
def uploader (env : Env) (config : Config) (syncConfig : SyncConfig) (src dest : URL) :
    List (file × Outcome) → List Event
  | [] => []
  | (f, o) :: rest =>
    uploadFile env config syncConfig src dest (normalizePfx dest.Path) f o ++
      uploader env config syncConfig src dest rest

/-- Pairs the records of `transferCh` with the results of the loop iterations that take
them: the record at position `i` of the queue gets `results i` -/
def schedule (results : Nat → Outcome) : Nat → List file → List (file × Outcome)
  | _, [] => []
  | i, f :: fs => (f, results i) :: schedule results (i + 1) fs

/-- How a call of `syncCmd` ends -/
inductive Result where
  /-- Ended by `os.Exit` with this code, after printing this line on the error stream -/
  | exited (code : Nat) (m : Msg)
  /-- Ended by a run-time panic in the walker goroutine -/
  | panicked
  /-- All goroutines ran to their end and `syncCmd` returned to `main`, which returns (exit
  code 0): the traces of the walker, of the forwarding loop and of the uploader, and the
  sequences carried by `walkCh` and `transferCh` -/
  | returned (walkTrace fwdTrace upTrace : List Event) (walkCh transferCh : List file)
deriving DecidableEq, Repr

/-- The function `syncCmd`.  `results i` is what the fallible calls of iteration `i` of the
uploader loop return.  The credentials lookup `awsKeys()` takes no part in the control flow
and is left out -/
def syncCmd (env : Env) (config : Config) (syncConfig : SyncConfig) (args : List GoString)
    (results : Nat → Outcome) : Result :=
  match validate env args with
  | Except.error (code, m) => Result.exited code m
  | Except.ok (src, dest, srcPath) =>
    match walker srcPath (env.Walk srcPath) with
    | none => Result.panicked
    | some (walkTrace, walkCh) =>
      let fwd := forward config syncConfig walkCh
      Result.returned walkTrace fwd.1
        (uploader env config syncConfig src dest (schedule results 0 fwd.2)) walkCh fwd.2

/-- The exit code of the process for a way `syncCmd` ends (2 is the code of the Go run time
for an unrecovered panic) -/
def Result.exitCode : Result → Nat
  | Result.exited code _ => code
  | Result.panicked => 2
  | Result.returned _ _ _ _ _ => 0

/-- The record an event opens, if it is a call of `f.Open()` -/
def Event.opened : Event → Option file
  | Event.Open f => some f
  | _ => none

/-- The record an event writes, if it is a call of `s3c.PutFrom` -/
def Event.written : Event → Option file
  | Event.PutFrom _ _ f _ _ => some f
  | _ => none

/-- The record an event deletes, if it is a call of `f.Delete()` -/
def Event.deleted : Event → Option file
  | Event.Delete f => some f
  | _ => none

/-- The record an event touches through one of its capabilities or through the storage
client, if any -/
def Event.target : Event → Option file
  | Event.Open f => some f
  | Event.PutFrom _ _ f _ _ => some f
  | Event.Close f => some f
  | Event.Delete f => some f
  | _ => none

/-- The line on standard output that announces the transfer of `f` to the key `key` -/
def transferLine (env : Env) (src dest : URL) (key : GoString) (f : file) : Event :=
  Event.stdout
    (Msg.Transfering { src with Path := env.Join src.Path f.Path } { dest with Path := key })

/-- The write of a queue entry returned no error: the loop reached the write (its open
returned no error) and `PutFrom` returned `nil` -/
def Outcome.written (o : Outcome) : Bool := o.Open.isNone && o.PutFrom.isNone

/-! ## Sample inputs -/

/-- A record for the file at relative path `rel` under the root `/src` -/
def sampleFile (rel : String) : file :=
  { Path := ascii rel, Info := { Size := 3, IsDir := false }, walked := ascii "/src/" ++ ascii rel }

/-- A matcher for the pattern `\\.log$`: the path ends with `.log` -/
def logPattern : Regexp := { MatchString := fun p => (ascii ".log").isSuffixOf p }

/-- An environment in which the two sample arguments parse, the source root is `/src` and
the walk visits the root and the files `a.txt`, `b.log` and `sub/c.txt` -/
def sampleEnv : Env :=
  { Parse := fun arg =>
      if arg = ascii "/src" then
        Except.ok { Scheme := ascii "", Host := ascii "", Path := ascii "/src" }
      else if arg = ascii "s3://bucket/data" then
        Except.ok { Scheme := ascii "s3", Host := ascii "bucket", Path := ascii "/data" }
      else Except.error (ascii "parse error"),
    Abs := fun p => Except.ok p,
    Join := fun a b => a ++ slash :: b,
    Ext := fun _ => ascii ".txt",
    TypeByExtension := fun _ => ascii "text/plain",
    Walk := fun root =>
      [ { path := root, info := some { Size := 0, IsDir := true }, err := none },
        { path := root ++ ascii "/a.txt", info := some { Size := 3, IsDir := false }, err := none },
        { path := root ++ ascii "/b.log", info := some { Size := 3, IsDir := false }, err := none },
        { path := root ++ ascii "/sub", info := some { Size := 0, IsDir := true }, err := none },
        { path := root ++ ascii "/sub/c.txt", info := some { Size := 3, IsDir := false },
          err := none } ] }

/-- The sample command line: source `/src`, destination `s3://bucket/data` -/
def sampleArgs : List GoString := [ascii "/src", ascii "s3://bucket/data"]

/-- The configuration of a run without `-d` and without `-v` -/
def quietConfig : Config :=
  { AccessKey := [], SecretKey := [], Token := [], DryRun := false, Verbose := false }

/-- Every call succeeds -/
def allOk : Outcome := { Open := none, PutFrom := none, Delete := none }

/-- The open fails -/
def openFails : Outcome := { Open := some (ascii "no such file"), PutFrom := none, Delete := none }

/-- The write fails -/
def putFails : Outcome := { Open := none, PutFrom := some (ascii "timeout"), Delete := none }

/-- The configuration left by `parseFlags` for a run with `-v` and without `-d` -/
def verboseConfig : Config :=
  { AccessKey := [], SecretKey := [], Token := [], DryRun := false, Verbose := true }

/-- The sample environment on a machine where the source root cannot be examined: the walk
calls the callback once, for the root, with the error -/
def brokenRootEnv : Env :=
  { sampleEnv with
    Walk := fun root => [{ path := root, info := none, err := some (ascii "lstat: no such file") }] }

/-- An environment in which the relative source `data` parses and the working directory is
gone, so that `filepath.Abs` fails -/
def noCwdEnv : Env :=
  { sampleEnv with
    Parse := fun arg =>
      if arg = ascii "data" then
        Except.ok { Scheme := ascii "", Host := ascii "", Path := ascii "data" }
      else if arg = ascii "s3://bucket/data" then
        Except.ok { Scheme := ascii "s3", Host := ascii "bucket", Path := ascii "/data" }
      else Except.error (ascii "parse error"),
    Abs := fun _ => Except.error (ascii "getwd: no such file or directory") }

/-- The path `filepath.Walk` gives to an entry `name` of the directory `dir`, which is
`filepath.Join(dir, name)`: for a clean `dir` the separator is added unless `dir` ends with
one already, which is the case of the file-system root only -/
def joinPath (dir : GoString) (name : GoString) : GoString :=
  if dir.getLast? = some slash then dir ++ name else dir ++ slash :: name

/-- Whether `syncCmd` got past its checks and started the pipeline -/
def Result.proceeded : Result → Bool
  | Result.exited _ _ => false
  | _ => true

/-- The checks of `syncCmd` on the two parsed URLs, as the command line states them: the
source scheme is empty or `file`, a `file` source has an empty host, the destination scheme
is `s3` -/
def urlsAccepted (src dest : URL) : Prop :=
  (src.Scheme = ascii "" ∨ src.Scheme = ascii "file")
    ∧ (src.Scheme = ascii "file" → src.Host = ascii "")
    ∧ dest.Scheme = ascii "s3"

/-- The form the destination prefix is said to have: `s` followed by one slash, where `s` is
not empty and neither begins nor ends with a slash -/
def wellFormedPfx (pfx : GoString) : Prop :=
  ∃ s : GoString, pfx = s ++ [slash] ∧ s ≠ [] ∧ s.head? ≠ some slash ∧ s.getLast? ≠ some slash

/-- The global flags of the command line `-d sync ...` -/
def sampleDryFlags : GlobalFlags :=
  { awsAccessKey := [], awsSecretKey := [], awsToken := [], d := true, v := false,
    args := [ascii "sync"] }

/-- The configuration `parseFlags` leaves for `sampleDryFlags` -/
def sampleDryConfig : Config :=
  { AccessKey := [], SecretKey := [], Token := [], DryRun := true, Verbose := true }

/-! ## Lemmas on the loops -/

theorem uploader_append (env : Env) (config : Config) (syncConfig : SyncConfig) (src dest : URL)
    (pre post : List (file × Outcome)) :
    uploader env config syncConfig src dest (pre ++ post) =
      uploader env config syncConfig src dest pre ++
        uploader env config syncConfig src dest post := by
  induction pre with
  | nil => simp [uploader]
  | cons j pre ih =>
    obtain ⟨f, o⟩ := j
    simp [uploader, ih]

theorem uploadFile_deleted (env : Env) (config : Config) (syncConfig : SyncConfig)
    (src dest : URL) (pfx : GoString) (f : file) (o : Outcome) :
    (uploadFile env config syncConfig src dest pfx f o).filterMap Event.deleted =
      if syncConfig.DeleteSource && !config.DryRun && o.written then [f] else [] := by
  obtain ⟨_, _, _, dry, verb⟩ := config
  obtain ⟨_ | _, _ | _, _ | _⟩ := o <;> cases dry <;> cases verb <;>
    cases h : syncConfig.DeleteSource <;>
    simp [uploadFile, logVerbose, logError, Outcome.written, Event.deleted, h]

theorem uploadFile_delete_mem (env : Env) (config : Config) (syncConfig : SyncConfig)
    (src dest : URL) (pfx : GoString) (f : file) (o : Outcome) :
    Event.Delete f ∈ uploadFile env config syncConfig src dest pfx f o ↔
      (syncConfig.DeleteSource = true ∧ config.DryRun = false ∧ o.Open = none ∧
        o.PutFrom = none) := by
  obtain ⟨_, _, _, dry, verb⟩ := config
  obtain ⟨_ | _, _ | _, _ | _⟩ := o <;> cases dry <;> cases verb <;>
    cases h : syncConfig.DeleteSource <;>
    simp [uploadFile, logVerbose, logError, h]

theorem uploadFile_opened (env : Env) (config : Config) (syncConfig : SyncConfig)
    (src dest : URL) (pfx : GoString) (f : file) (o : Outcome) (h : config.DryRun = false) :
    (uploadFile env config syncConfig src dest pfx f o).filterMap Event.opened = [f] := by
  obtain ⟨_, _, _, dry, verb⟩ := config
  simp only at h
  subst h
  obtain ⟨_ | _, _ | _, _ | _⟩ := o <;> cases verb <;>
    cases h : syncConfig.DeleteSource <;>
    simp [uploadFile, logVerbose, logError, Event.opened, h]

theorem uploadFile_written (env : Env) (config : Config) (syncConfig : SyncConfig)
    (src dest : URL) (pfx : GoString) (f : file) (o : Outcome) (h : config.DryRun = false) :
    (uploadFile env config syncConfig src dest pfx f o).filterMap Event.written =
      if o.Open.isNone then [f] else [] := by
  obtain ⟨_, _, _, dry, verb⟩ := config
  simp only at h
  subst h
  obtain ⟨_ | _, _ | _, _ | _⟩ := o <;> cases verb <;>
    cases h : syncConfig.DeleteSource <;>
    simp [uploadFile, logVerbose, logError, Event.written, h]

theorem uploadFile_target (env : Env) (config : Config) (syncConfig : SyncConfig)
    (src dest : URL) (pfx : GoString) (f : file) (o : Outcome) :
    (uploadFile env config syncConfig src dest pfx f o).filterMap Event.target ⊆ [f] := by
  obtain ⟨_, _, _, dry, verb⟩ := config
  obtain ⟨_ | _, _ | _, _ | _⟩ := o <;> cases dry <;> cases verb <;>
    cases h : syncConfig.DeleteSource <;>
    simp [uploadFile, logVerbose, logError, Event.target, h]

theorem uploadFile_dry (env : Env) (config : Config) (syncConfig : SyncConfig)
    (src dest : URL) (pfx : GoString) (f : file) (o : Outcome)
    (hd : config.DryRun = true) (hv : config.Verbose = true) :
    uploadFile env config syncConfig src dest pfx f o =
      [transferLine env src dest (dpath pfx f.Path) f] := by
  simp [uploadFile, logVerbose, transferLine, hd, hv]

theorem skip_eq_any (es : List Regexp) (p : GoString) :
    skip es p = es.any (fun e => e.MatchString p) := by
  induction es with
  | nil => rfl
  | cons e es ih => cases h : e.MatchString p <;> simp [skip, h, ih]

theorem forward_snd (config : Config) (syncConfig : SyncConfig) (files : List file) :
    (forward config syncConfig files).2 =
      files.filter (fun f => !skip syncConfig.Excludes f.Path) := by
  induction files with
  | nil => rfl
  | cons f fs ih =>
    cases h : skip syncConfig.Excludes f.Path <;> simp [forward, h, ih]

theorem schedule_fst (results : Nat → Outcome) (i : Nat) (files : List file) :
    (schedule results i files).map Prod.fst = files := by
  induction files generalizing i with
  | nil => rfl
  | cons f fs ih => simp [schedule, ih]

theorem uploader_target (env : Env) (config : Config) (syncConfig : SyncConfig)
    (src dest : URL) (jobs : List (file × Outcome)) :
    (uploader env config syncConfig src dest jobs).filterMap Event.target ⊆
      jobs.map Prod.fst := by
  induction jobs with
  | nil => simp [uploader]
  | cons j jobs ih =>
    obtain ⟨f, o⟩ := j
    simp only [uploader, List.filterMap_append, List.map_cons]
    intro g hg
    rcases List.mem_append.mp hg with hg | hg
    · have := uploadFile_target env config syncConfig src dest _ f o hg
      simp at this
      simp [this]
    · exact List.mem_cons_of_mem _ (ih hg)

theorem uploader_dry (env : Env) (config : Config) (syncConfig : SyncConfig)
    (src dest : URL) (jobs : List (file × Outcome))
    (hd : config.DryRun = true) (hv : config.Verbose = true) :
    uploader env config syncConfig src dest jobs =
      jobs.map (fun j => transferLine env src dest (dpath (normalizePfx dest.Path) j.1.Path) j.1) := by
  induction jobs with
  | nil => simp [uploader]
  | cons j jobs ih =>
    obtain ⟨f, o⟩ := j
    simp [uploader, ih, uploadFile_dry env config syncConfig src dest _ f o hd hv]

theorem parseFlags_dry (fl : GlobalFlags) (config : Config)
    (h : parseFlags fl = Except.ok config) (hd : fl.d = true) :
    config.DryRun = true ∧ config.Verbose = true := by
  unfold parseFlags at h
  split at h
  · cases h
  · simp only [hd, if_true] at h
    cases h
    simp

/-! ## The claims -/

/-- C1: in the uploader loop the `Delete` capability of a queue entry is called if and only if
`syncConfig.DeleteSource` is true, `config.DryRun` is false and the write of that entry
returned no error (its open succeeded and `PutFrom` returned `nil`), and it is called at
most once: the delete calls of the whole loop are the entries that satisfy the condition,
in queue order, and the delete calls of one iteration are the entry itself or nothing -/
theorem delete_iff_write_succeeded (env : Env) (config : Config) (syncConfig : SyncConfig)
    (src dest : URL) (jobs : List (file × Outcome)) :
    (uploader env config syncConfig src dest jobs).filterMap Event.deleted =
        (jobs.filter
          (fun j => syncConfig.DeleteSource && !config.DryRun && j.2.written)).map Prod.fst
    ∧ ∀ (pfx : GoString) (f : file) (o : Outcome),
        (Event.Delete f ∈ uploadFile env config syncConfig src dest pfx f o ↔
          (syncConfig.DeleteSource = true ∧ config.DryRun = false ∧ o.Open = none ∧
            o.PutFrom = none))
        ∧ (uploadFile env config syncConfig src dest pfx f o).filterMap Event.deleted =
            if syncConfig.DeleteSource && !config.DryRun && o.written then [f] else [] := by
  refine ⟨?_, fun pfx f o => ⟨uploadFile_delete_mem env config syncConfig src dest pfx f o,
    uploadFile_deleted env config syncConfig src dest pfx f o⟩⟩
  induction jobs with
  | nil => simp [uploader]
  | cons j jobs ih =>
    obtain ⟨f, o⟩ := j
    simp only [uploader, List.filterMap_append, ih, uploadFile_deleted, List.filter_cons]
    split <;> simp

/-- C2: the sequence the forwarding loop of `syncCmd` sends on `transferCh` is the discovered
sequence without the records whose relative path matches at least one exclude pattern, in
the same order; the uploader, fed with that sequence, touches no other record; with the
files `a.txt`, `b.log`, `sub/c.txt` and the pattern `\\.log$` it forwards `a.txt` and
`sub/c.txt` only -/
theorem forward_is_filter (env : Env) (config : Config) (syncConfig : SyncConfig)
    (src dest : URL) (results : Nat → Outcome) (files : List file) :
    (forward config syncConfig files).2 =
        files.filter (fun f => !syncConfig.Excludes.any (fun e => e.MatchString f.Path))
    ∧ (uploader env config syncConfig src dest
          (schedule results 0 (forward config syncConfig files).2)).filterMap Event.target ⊆
        files.filter (fun f => !syncConfig.Excludes.any (fun e => e.MatchString f.Path))
    ∧ (forward quietConfig { DeleteSource := false, Excludes := [logPattern] }
          [sampleFile "a.txt", sampleFile "b.log", sampleFile "sub/c.txt"]).2 =
        [sampleFile "a.txt", sampleFile "sub/c.txt"] := by
  have h1 : (forward config syncConfig files).2 =
      files.filter (fun f => !syncConfig.Excludes.any (fun e => e.MatchString f.Path)) := by
    rw [forward_snd]
    congr 1
    funext f
    rw [skip_eq_any]
  refine ⟨h1, ?_, by decide⟩
  have h2 := uploader_target env config syncConfig src dest
    (schedule results 0 (forward config syncConfig files).2)
  rw [schedule_fst, h1] at h2
  rw [h1]
  exact h2

/-- C4: in a run that is not a dry run the uploader loop makes exactly one open attempt per
queue entry, in queue order, and a write attempt exactly for the entries whose own open
succeeded; the trace of the loop over a queue is the trace over its earlier part followed by
the trace over its later part, so what is issued for later entries does not depend on what
the calls of earlier entries returned, and the loop reaches the last entry -/
theorem uploader_attempts_every_entry (env : Env) (config : Config) (syncConfig : SyncConfig)
    (src dest : URL) (jobs : List (file × Outcome)) (hdry : config.DryRun = false) :
    (uploader env config syncConfig src dest jobs).filterMap Event.opened = jobs.map Prod.fst
    ∧ (uploader env config syncConfig src dest jobs).filterMap Event.written =
        (jobs.filter (fun j => j.2.Open.isNone)).map Prod.fst
    ∧ ∀ pre post : List (file × Outcome),
        uploader env config syncConfig src dest (pre ++ post) =
          uploader env config syncConfig src dest pre ++
            uploader env config syncConfig src dest post := by
  refine ⟨?_, ?_, uploader_append env config syncConfig src dest⟩
  · induction jobs with
    | nil => simp [uploader]
    | cons j jobs ih =>
      obtain ⟨f, o⟩ := j
      simp [uploader, List.filterMap_append, ih, uploadFile_opened _ _ _ _ _ _ _ _ hdry]
  · induction jobs with
    | nil => simp [uploader]
    | cons j jobs ih =>
      obtain ⟨f, o⟩ := j
      simp only [uploader, List.filterMap_append, ih,
        uploadFile_written _ _ _ _ _ _ _ _ hdry, List.filter_cons]
      split <;> simp

/-- Witness of C4: a queue of three entries whose first open fails and whose second write
fails still gets three open attempts and two write attempts -/
theorem uploader_attempts_every_entry_witness :
    quietConfig.DryRun = false
    ∧ (uploader sampleEnv quietConfig { DeleteSource := true, Excludes := [] }
          { Scheme := [], Host := [], Path := ascii "/src" }
          { Scheme := ascii "s3", Host := ascii "bucket", Path := ascii "/data" }
          [(sampleFile "a.txt", openFails), (sampleFile "b.txt", putFails),
            (sampleFile "c.txt", allOk)]).filterMap Event.opened =
        [sampleFile "a.txt", sampleFile "b.txt", sampleFile "c.txt"] :=
  ⟨rfl, (uploader_attempts_every_entry sampleEnv quietConfig
    { DeleteSource := true, Excludes := [] }
    { Scheme := [], Host := [], Path := ascii "/src" }
    { Scheme := ascii "s3", Host := ascii "bucket", Path := ascii "/data" }
    [(sampleFile "a.txt", openFails), (sampleFile "b.txt", putFails),
      (sampleFile "c.txt", allOk)] rfl).1⟩

/-- C5: the switch on the destination path leaves the paths `""` and `"/"` as they are: with
the empty path the key of a relative path is the relative path, with `"/"` the key is the
relative path preceded by a slash, and `x/y.txt` is uploaded to the key `/x/y.txt` -/
theorem root_slash_is_kept :
    normalizePfx (ascii "/") = ascii "/"
    ∧ dpath (normalizePfx (ascii "/")) (ascii "x/y.txt") = ascii "/x/y.txt"
    ∧ dpath (normalizePfx (ascii "/")) (ascii "x/y.txt") ≠ ascii "x/y.txt"
    ∧ dpath (normalizePfx (ascii "")) (ascii "x/y.txt") = ascii "x/y.txt"
    ∧ ∀ r : GoString, dpath (normalizePfx (ascii "")) r = r
        ∧ dpath (normalizePfx (ascii "/")) r = slash :: r := by
  refine ⟨by decide, by decide, by decide, by decide, fun r => ⟨rfl, rfl⟩⟩

theorem wellFormedPfx_of (q : GoString) (hne : q ≠ []) (hhead : q.head? ≠ some slash)
    (hend : ¬ [slash, slash] <:+ q) :
    wellFormedPfx (if q.getLast? ≠ some slash then q ++ [slash] else q) := by
  by_cases hl : q.getLast? = some slash
  · rw [if_neg (not_not.mpr hl)]
    rcases List.eq_nil_or_concat q with h | ⟨s, b, h⟩
    · exact absurd h hne
    · subst h
      have hb : b = slash := by simpa using hl
      subst hb
      refine ⟨s, by simp, ?_, ?_, ?_⟩
      · rintro rfl
        exact hhead (by simp)
      · cases s with
        | nil => simp
        | cons a t => simpa using hhead
      · intro hs
        rcases List.eq_nil_or_concat s with h | ⟨u, c, h⟩
        · subst h
          simp at hs
        · subst h
          have hc : c = slash := by simpa using hs
          subst hc
          exact hend ⟨u, by simp⟩
  · rw [if_pos hl]
    exact ⟨q, rfl, hne, hhead, hl⟩

/-- C6 as stated fails: the destination path `//` is neither `""` nor `"/"` and its
normalized prefix is the single slash, which is not a non-empty `s` followed by a slash -/
theorem double_slash_not_well_formed :
    ascii "//" ≠ ascii "" ∧ ascii "//" ≠ ascii "/"
    ∧ normalizePfx (ascii "//") = ascii "/"
    ∧ ¬ wellFormedPfx (normalizePfx (ascii "//")) := by
  refine ⟨by decide, by decide, by decide, ?_⟩
  rintro ⟨s, hs, hne, -, -⟩
  have h : normalizePfx (ascii "//") = [slash] := by decide
  rw [h] at hs
  cases s with
  | nil => exact hne rfl
  | cons a t =>
    cases t with
    | nil => simp at hs
    | cons b u => simp at hs

/-- C6 amended: for every destination path other than `""` and `"/"` the normalized prefix is
the path without its first byte when that is a slash, followed by a slash unless it ends
with one already; it is not empty and ends with a slash; when the path neither begins
nor ends with two slashes it is `s` followed by one slash with `s` non-empty and without a
slash at either end; the key of a file is the prefix followed by the relative path, so the prefix
`data` gives the keys `data/a.txt` and `data/sub/c.txt` -/
theorem normalizePfx_form (p : GoString) (h0 : p ≠ ascii "") (h1 : p ≠ ascii "/") :
    normalizePfx p =
        (if p.head? = some slash then p.drop 1 else p) ++
          (if (if p.head? = some slash then p.drop 1 else p).getLast? ≠ some slash
            then [slash] else [])
    ∧ normalizePfx p ≠ []
    ∧ (normalizePfx p).getLast? = some slash
    ∧ ((¬ [slash, slash] <+: p ∧ ¬ [slash, slash] <:+ p) → wellFormedPfx (normalizePfx p))
    ∧ (∀ r : GoString, dpath (normalizePfx p) r = normalizePfx p ++ r)
    ∧ dpath (normalizePfx (ascii "data")) (ascii "a.txt") = ascii "data/a.txt"
    ∧ dpath (normalizePfx (ascii "data")) (ascii "sub/c.txt") = ascii "data/sub/c.txt" := by
  have hcase : ¬ (p.length = 0 ∨ (p.length = 1 ∧ p.head? = some slash)) := by
    rintro (h | ⟨hl, hh⟩)
    · exact h0 (List.length_eq_zero.mp h)
    · obtain ⟨a, rfl⟩ := List.length_eq_one.mp hl
      simp at hh
      subst hh
      exact h1 rfl
  have hq : (if p.head? = some slash then p.drop 1 else p) ≠ [] := by
    split
    · next hh =>
      cases p with
      | nil => simp at hh
      | cons a t =>
        simp at hh
        subst hh
        intro ht
        simp at ht
        subst ht
        exact h1 rfl
    · exact h0
  have hN : normalizePfx p =
      (if (if p.head? = some slash then p.drop 1 else p).getLast? ≠ some slash
        then (if p.head? = some slash then p.drop 1 else p) ++ [slash]
        else (if p.head? = some slash then p.drop 1 else p)) := by
    unfold normalizePfx
    rw [if_neg hcase]
  have hhead : (¬ [slash, slash] <+: p) →
      (if p.head? = some slash then p.drop 1 else p).head? ≠ some slash := by
    intro hpre
    split
    · next hh =>
      cases p with
      | nil => simp at hh
      | cons a t =>
        simp at hh
        subst hh
        cases t with
        | nil => exact absurd rfl h1
        | cons b u =>
          simp only [List.drop_one, List.tail_cons, List.head?_cons]
          intro hb
          apply hpre
          simp at hb
          subst hb
          exact ⟨u, rfl⟩
    · next hh => exact hh
  have hend : (¬ [slash, slash] <:+ p) →
      ¬ [slash, slash] <:+ (if p.head? = some slash then p.drop 1 else p) := by
    intro hsuf
    split
    · intro hs
      apply hsuf
      obtain ⟨u, hu⟩ := hs
      exact ⟨p.take 1 ++ u, by rw [List.append_assoc, hu, List.take_append_drop]⟩
    · exact hsuf
  rw [hN]
  generalize (if p.head? = some slash then p.drop 1 else p) = q at hq hhead hend
  refine ⟨?_, ?_, ?_, ?_, fun r => rfl, by decide, by decide⟩
  · by_cases hl : q.getLast? = some slash <;> simp [hl]
  · by_cases hl : q.getLast? = some slash <;> simp [hl, hq]
  · by_cases hl : q.getLast? = some slash <;> simp [hl]
  · rintro ⟨hpre, hsuf⟩
    exact wellFormedPfx_of q hq (hhead hpre) (hend hsuf)

/-- Witness of C6 amended, at the destination path `/data/2024` -/
theorem normalizePfx_form_witness :
    ascii "/data/2024" ≠ ascii "" ∧ ascii "/data/2024" ≠ ascii "/"
    ∧ normalizePfx (ascii "/data/2024") ≠ []
    ∧ wellFormedPfx (normalizePfx (ascii "/data/2024")) :=
  ⟨by decide, by decide,
    (normalizePfx_form (ascii "/data/2024") (by decide) (by decide)).2.1,
    (normalizePfx_form (ascii "/data/2024") (by decide) (by decide)).2.2.2.1
      ⟨by decide, by decide⟩⟩

theorem syncCmd_of_validate (env : Env) (config : Config) (syncConfig : SyncConfig)
    (args : List GoString) (results : Nat → Outcome) (src dest : URL) (srcPath : GoString)
    (walkTrace : List Event) (walkCh : List file)
    (hval : validate env args = Except.ok (src, dest, srcPath))
    (hwalk : walker srcPath (env.Walk srcPath) = some (walkTrace, walkCh)) :
    syncCmd env config syncConfig args results =
      Result.returned walkTrace (forward config syncConfig walkCh).1
        (uploader env config syncConfig src dest
          (schedule results 0 (forward config syncConfig walkCh).2))
        walkCh (forward config syncConfig walkCh).2 := by
  simp [syncCmd, hval, hwalk]

/-- C3: in a run whose configuration comes from `parseFlags` with the flag `-d` set, the
uploader makes no call at all (no `Open`, no `PutFrom`, no `Delete`) whatever those calls
would return, and its trace is one line `Transfering source -> destination` per record that
matches no exclude pattern, in order, whose destination path is the normalized prefix
followed by the relative path of the record -/
theorem dry_run_only_logs (env : Env) (fl : GlobalFlags) (config : Config)
    (syncConfig : SyncConfig) (args : List GoString) (results : Nat → Outcome)
    (src dest : URL) (srcPath : GoString) (walkTrace : List Event) (walkCh : List file)
    (hflags : parseFlags fl = Except.ok config) (hd : fl.d = true)
    (hval : validate env args = Except.ok (src, dest, srcPath))
    (hwalk : walker srcPath (env.Walk srcPath) = some (walkTrace, walkCh)) :
    syncCmd env config syncConfig args results =
      Result.returned walkTrace (forward config syncConfig walkCh).1
        ((walkCh.filter
            (fun f => !syncConfig.Excludes.any (fun e => e.MatchString f.Path))).map
          (fun f => Event.stdout (Msg.Transfering
            { src with Path := env.Join src.Path f.Path }
            { dest with Path := normalizePfx dest.Path ++ f.Path })))
        walkCh
        (walkCh.filter (fun f => !syncConfig.Excludes.any (fun e => e.MatchString f.Path)))
    ∧ ∀ jobs : List (file × Outcome),
        uploader env config syncConfig src dest jobs =
          jobs.map (fun j => Event.stdout (Msg.Transfering
            { src with Path := env.Join src.Path j.1.Path }
            { dest with Path := normalizePfx dest.Path ++ j.1.Path })) := by
  obtain ⟨hdry, hverb⟩ := parseFlags_dry fl config hflags hd
  have hup : ∀ jobs : List (file × Outcome),
      uploader env config syncConfig src dest jobs =
        jobs.map (fun j => Event.stdout (Msg.Transfering
          { src with Path := env.Join src.Path j.1.Path }
          { dest with Path := normalizePfx dest.Path ++ j.1.Path })) := by
    intro jobs
    rw [uploader_dry env config syncConfig src dest jobs hdry hverb]
    rfl
  have hfwd : (forward config syncConfig walkCh).2 =
      walkCh.filter (fun f => !syncConfig.Excludes.any (fun e => e.MatchString f.Path)) := by
    rw [forward_snd]
    congr 1
    funext f
    rw [skip_eq_any]
  refine ⟨?_, hup⟩
  rw [syncCmd_of_validate env config syncConfig args results src dest srcPath walkTrace walkCh
    hval hwalk, hup, hfwd]
  congr 1
  have h := congrArg
    (List.map (fun f : file => Event.stdout (Msg.Transfering
      { src with Path := env.Join src.Path f.Path }
      { dest with Path := normalizePfx dest.Path ++ f.Path })))
    (schedule_fst results 0
      (walkCh.filter (fun f => !syncConfig.Excludes.any (fun e => e.MatchString f.Path))))
  rw [List.map_map] at h
  exact h

/-- Witness of C3: the sample tree with the flag `-d`, the exclude pattern `\\.log$` and the
destination `s3://bucket/data`, where every open would fail if it were made: the uploader
prints the two lines for `a.txt` and `sub/c.txt` and makes no call -/
theorem dry_run_only_logs_witness :
    parseFlags sampleDryFlags = Except.ok sampleDryConfig ∧ sampleDryFlags.d = true
    ∧ syncCmd sampleEnv sampleDryConfig { DeleteSource := true, Excludes := [logPattern] }
        sampleArgs (fun _ => openFails) =
      Result.returned [] [Event.stdout (Msg.Skipping (ascii "b.log"))]
        [Event.stdout (Msg.Transfering
            { Scheme := ascii "", Host := ascii "", Path := ascii "/src/a.txt" }
            { Scheme := ascii "s3", Host := ascii "bucket", Path := ascii "data/a.txt" }),
          Event.stdout (Msg.Transfering
            { Scheme := ascii "", Host := ascii "", Path := ascii "/src/sub/c.txt" }
            { Scheme := ascii "s3", Host := ascii "bucket", Path := ascii "data/sub/c.txt" })]
        [sampleFile "a.txt", sampleFile "b.log", sampleFile "sub/c.txt"]
        [sampleFile "a.txt", sampleFile "sub/c.txt"] :=
  ⟨rfl, rfl,
    (dry_run_only_logs sampleEnv sampleDryFlags sampleDryConfig
      { DeleteSource := true, Excludes := [logPattern] } sampleArgs (fun _ => openFails)
      { Scheme := ascii "", Host := ascii "", Path := ascii "/src" }
      { Scheme := ascii "s3", Host := ascii "bucket", Path := ascii "/data" }
      (ascii "/src") []
      [sampleFile "a.txt", sampleFile "b.log", sampleFile "sub/c.txt"]
      rfl rfl rfl rfl).1⟩

/-- C7 as stated fails: when the walk reports an error for the root entry, the error is
logged once on the error stream and `syncCmd` returns normally, with exit code 0 -/
theorem root_walk_error_not_fatal :
    brokenRootEnv.Walk (ascii "/src") =
        [{ path := ascii "/src", info := none, err := some (ascii "lstat: no such file") }]
    ∧ syncCmd brokenRootEnv quietConfig { DeleteSource := false, Excludes := [] } sampleArgs
          (fun _ => allOk) =
        Result.returned
          [Event.stderr (Msg.ErrorWalking (ascii "/src") (ascii "lstat: no such file"))]
          [] [] [] []
    ∧ (syncCmd brokenRootEnv quietConfig { DeleteSource := false, Excludes := [] } sampleArgs
          (fun _ => allOk)).exitCode = 0 := by
  refine ⟨rfl, by decide, by decide⟩

theorem walker_append (srcPath : GoString) (pre post : List WalkCall) :
    walker srcPath (pre ++ post) =
      (walker srcPath pre).bind (fun a => (walker srcPath post).bind
        (fun b => some (a.1 ++ b.1, a.2 ++ b.2))) := by
  induction pre with
  | nil =>
    cases h : walker srcPath post <;> simp [walker, h]
  | cons c pre ih =>
    rw [List.cons_append, walker, ih, walker]
    cases h1 : walkFn srcPath c with
    | none => simp
    | some r =>
      obtain ⟨l, s⟩ := r
      cases h2 : walker srcPath pre with
      | none => simp
      | some a =>
        cases h3 : walker srcPath post with
        | none => simp
        | some b => simp

/-- C7 amended: when the walk reports an error for the root entry and nothing else, the
error is logged exactly once on the error stream, no record is discovered, forwarded or
transferred, and `syncCmd` returns normally (exit code 0); a walk error on any entry is
logged, the entry is skipped and the walk goes on with the entries that follow -/
theorem root_walk_error_is_logged (env : Env) (config : Config) (syncConfig : SyncConfig)
    (args : List GoString) (results : Nat → Outcome) (src dest : URL) (srcPath : GoString)
    (info : Option FileInfo) (err : error)
    (hval : validate env args = Except.ok (src, dest, srcPath))
    (hroot : env.Walk srcPath = [{ path := srcPath, info := info, err := some err }]) :
    syncCmd env config syncConfig args results =
        Result.returned [Event.stderr (Msg.ErrorWalking srcPath err)] [] [] [] []
    ∧ (syncCmd env config syncConfig args results).exitCode = 0
    ∧ ∀ (pre post : List WalkCall) (p : GoString) (i : Option FileInfo) (e : error),
        walker srcPath (pre ++ { path := p, info := i, err := some e } :: post) =
          (walker srcPath pre).bind (fun a => (walker srcPath post).bind
            (fun b => some (a.1 ++ Event.stderr (Msg.ErrorWalking p e) :: b.1, a.2 ++ b.2))) := by
  have h : syncCmd env config syncConfig args results =
      Result.returned [Event.stderr (Msg.ErrorWalking srcPath err)] [] [] [] [] := by
    simp [syncCmd, hval, hroot, walker, walkFn, logError, forward, schedule, uploader]
  refine ⟨h, by rw [h]; rfl, ?_⟩
  intro pre post p i e
  rw [walker_append]
  cases h2 : walker srcPath pre with
  | none => simp
  | some a =>
    cases h3 : walker srcPath post with
    | none => simp [walker, walkFn, h3]
    | some b => simp [walker, walkFn, h3, logError]

/-- Witness of C7 amended: the sample command line on a machine where the root cannot be
examined -/
theorem root_walk_error_is_logged_witness :
    validate brokenRootEnv sampleArgs =
        Except.ok ({ Scheme := ascii "", Host := ascii "", Path := ascii "/src" },
          { Scheme := ascii "s3", Host := ascii "bucket", Path := ascii "/data" }, ascii "/src")
    ∧ (syncCmd brokenRootEnv verboseConfig { DeleteSource := true, Excludes := [] } sampleArgs
          (fun _ => allOk)).exitCode = 0 :=
  ⟨rfl, (root_walk_error_is_logged brokenRootEnv verboseConfig
    { DeleteSource := true, Excludes := [] } sampleArgs (fun _ => allOk)
    { Scheme := ascii "", Host := ascii "", Path := ascii "/src" }
    { Scheme := ascii "s3", Host := ascii "bucket", Path := ascii "/data" } (ascii "/src")
    none (ascii "lstat: no such file") rfl rfl).2.1⟩

/-- C8: an open that fails is reported through `logVerbose`, not through `logError`: without
`-v` the iteration makes the open attempt and prints nothing on either stream, with `-v` the
line goes to standard output; a failed write, next to it, is reported on the error stream
in both cases -/
theorem open_failure_not_on_stderr :
    uploadFile sampleEnv quietConfig { DeleteSource := false, Excludes := [] }
        { Scheme := ascii "", Host := ascii "", Path := ascii "/src" }
        { Scheme := ascii "s3", Host := ascii "bucket", Path := ascii "/data" }
        (ascii "data/") (sampleFile "a.txt") openFails =
      [Event.Open (sampleFile "a.txt")]
    ∧ uploadFile sampleEnv verboseConfig { DeleteSource := false, Excludes := [] }
        { Scheme := ascii "", Host := ascii "", Path := ascii "/src" }
        { Scheme := ascii "s3", Host := ascii "bucket", Path := ascii "/data" }
        (ascii "data/") (sampleFile "a.txt") openFails =
      [Event.stdout (Msg.Transfering
          { Scheme := ascii "", Host := ascii "", Path := ascii "/src/a.txt" }
          { Scheme := ascii "s3", Host := ascii "bucket", Path := ascii "data/a.txt" }),
        Event.Open (sampleFile "a.txt"),
        Event.stdout (Msg.FailedToOpen (ascii "a.txt") (ascii "no such file"))]
    ∧ uploadFile sampleEnv quietConfig { DeleteSource := false, Excludes := [] }
        { Scheme := ascii "", Host := ascii "", Path := ascii "/src" }
        { Scheme := ascii "s3", Host := ascii "bucket", Path := ascii "/data" }
        (ascii "data/") (sampleFile "a.txt") putFails =
      [Event.Open (sampleFile "a.txt"),
        Event.PutFrom (ascii "bucket") (ascii "data/a.txt") (sampleFile "a.txt") 3
          (ascii "text/plain"),
        Event.Close (sampleFile "a.txt"),
        Event.stderr (Msg.FailedToTransfer (ascii "a.txt") (ascii "timeout"))] := by
  refine ⟨by decide, by decide, by decide⟩

/-- C10: with the file-system root as source root the slice `path[len(srcPath)+1:]` drops
one byte too many: the file `/etc/passwd` is recorded under the relative path `tc/passwd`,
and joining the root with that gives `/tc/passwd` -/
theorem root_source_drops_a_byte :
    joinPath (ascii "/") (ascii "etc/passwd") = ascii "/etc/passwd"
    ∧ walkFn (ascii "/")
        { path := ascii "/etc/passwd", info := some { Size := 9, IsDir := false },
          err := none } =
      some ([],
        [{ Path := ascii "tc/passwd", walked := ascii "/etc/passwd",
            Info := { Size := 9, IsDir := false } }])
    ∧ relPath (ascii "/") (ascii "/etc/passwd") = some (ascii "tc/passwd")
    ∧ joinPath (ascii "/") (ascii "tc/passwd") ≠ ascii "/etc/passwd" := by
  refine ⟨by decide, by decide, by decide, by decide⟩

/-- Under a source root that does not end with a separator the recorded relative path is
the walked path without the root and the separator, and joining gives the walked path back -/
theorem relPath_joinPath (root rest : GoString) (h : root.getLast? ≠ some slash) :
    relPath root (joinPath root rest) = some rest := by
  simp [relPath, joinPath, h]

/-- C9 as stated fails: the relative source `data` and the destination `s3://bucket/data`
parse and pass the three checks on schemes and host, yet `syncCmd` ends with exit code 2,
because the absolute source path cannot be computed -/
theorem abs_failure_exits_two :
    noCwdEnv.Parse (ascii "data") =
        Except.ok { Scheme := ascii "", Host := ascii "", Path := ascii "data" }
    ∧ noCwdEnv.Parse (ascii "s3://bucket/data") =
        Except.ok { Scheme := ascii "s3", Host := ascii "bucket", Path := ascii "/data" }
    ∧ urlsAccepted { Scheme := ascii "", Host := ascii "", Path := ascii "data" }
        { Scheme := ascii "s3", Host := ascii "bucket", Path := ascii "/data" }
    ∧ syncCmd noCwdEnv quietConfig { DeleteSource := false, Excludes := [] }
          [ascii "data", ascii "s3://bucket/data"] (fun _ => allOk) =
        Result.exited 2 (Msg.UnableAbsolute (ascii "getwd: no such file or directory"))
    ∧ (syncCmd noCwdEnv quietConfig { DeleteSource := false, Excludes := [] }
          [ascii "data", ascii "s3://bucket/data"] (fun _ => allOk)).proceeded = false := by
  refine ⟨rfl, rfl, ⟨Or.inl rfl, fun h => rfl, rfl⟩, by decide, by decide⟩

theorem validate_short (env : Env) (args : List GoString) (h : args.length < 2) :
    validate env args = Except.error (1, Msg.Usage) := by
  match args, h with
  | [], _ => rfl
  | [_], _ => rfl
  | _ :: _ :: _, h => exact absurd h (by simp)

theorem validate_two (env : Env) (arg0 arg1 : GoString) (rest : List GoString) :
    (∃ (src dest : URL) (srcPath : GoString),
        (env.Parse arg0 = Except.ok src ∧ env.Parse arg1 = Except.ok dest
          ∧ urlsAccepted src dest ∧ env.Abs src.Path = Except.ok srcPath)
        ∧ validate env (arg0 :: arg1 :: rest) = Except.ok (src, dest, srcPath))
    ∨ ((¬ ∃ (src dest : URL) (srcPath : GoString),
          env.Parse arg0 = Except.ok src ∧ env.Parse arg1 = Except.ok dest
            ∧ urlsAccepted src dest ∧ env.Abs src.Path = Except.ok srcPath)
        ∧ ∃ m : Msg, validate env (arg0 :: arg1 :: rest) = Except.error (2, m)) := by
  cases h0 : env.Parse arg0 with
  | error e =>
    right
    refine ⟨?_, _, by simp only [validate, h0]; rfl⟩
    rintro ⟨s, d, p, hs, -⟩
    cases hs
  | ok src =>
    cases h1 : env.Parse arg1 with
    | error e =>
      right
      refine ⟨?_, _, by simp only [validate, h0, h1]; rfl⟩
      rintro ⟨s, d, p, -, hd, -⟩
      cases hd
    | ok dest =>
      by_cases c1 : src.Scheme ≠ ascii "" ∧ src.Scheme ≠ ascii "file"
      · right
        refine ⟨?_, _, by simp only [validate, h0, h1]; rw [if_pos c1]⟩
        rintro ⟨s, d, p, hs, -, ⟨h, -, -⟩, -⟩
        cases hs
        rcases h with h | h
        · exact c1.1 h
        · exact c1.2 h
      · by_cases c2 : (src.Scheme = ascii "file" ∧ src.Host ≠ ascii "")
            ∨ (dest.Scheme = ascii "file" ∧ dest.Host ≠ ascii "")
        · right
          refine ⟨?_, _, by simp only [validate, h0, h1]; rw [if_neg c1, if_pos c2]⟩
          rintro ⟨s, d, p, hs, hd, ⟨-, h, h3⟩, -⟩
          cases hs
          cases hd
          rcases c2 with c2 | c2
          · exact c2.2 (h c2.1)
          · rw [h3] at c2
            exact absurd c2.1 (by decide)
        · by_cases c3 : dest.Scheme ≠ ascii "s3"
          · right
            refine ⟨?_, _,
              by simp only [validate, h0, h1]; rw [if_neg c1, if_neg c2, if_pos c3]⟩
            rintro ⟨s, d, p, -, hd, ⟨-, -, h3⟩, -⟩
            cases hd
            exact c3 h3
          · cases h2 : env.Abs src.Path with
            | error e =>
              right
              refine ⟨?_, _, by
                simp only [validate, h0, h1]
                rw [if_neg c1, if_neg c2, if_neg c3]
                simp only [h2]
                rfl⟩
              rintro ⟨s, d, p, hs, -, -, ha⟩
              cases hs
              rw [h2] at ha
              cases ha
            | ok srcPath =>
              left
              refine ⟨src, dest, srcPath, ⟨rfl, rfl, ⟨?_, ?_, not_not.mp c3⟩, h2⟩, by
                simp only [validate, h0, h1]
                rw [if_neg c1, if_neg c2, if_neg c3]
                simp only [h2]⟩
              · by_contra hn
                exact c1 ⟨fun h => hn (Or.inl h), fun h => hn (Or.inr h)⟩
              · intro hf
                by_contra hn
                exact c2 (Or.inl ⟨hf, hn⟩)

theorem syncCmd_proceeded_of_ok (env : Env) (config : Config) (syncConfig : SyncConfig)
    (args : List GoString) (results : Nat → Outcome) (r : URL × URL × GoString)
    (h : validate env args = Except.ok r) :
    (syncCmd env config syncConfig args results).proceeded = true := by
  obtain ⟨src, dest, srcPath⟩ := r
  simp only [syncCmd, h]
  cases walker srcPath (env.Walk srcPath) <;> rfl

theorem syncCmd_exited_of_error (env : Env) (config : Config) (syncConfig : SyncConfig)
    (args : List GoString) (results : Nat → Outcome) (code : Nat) (m : Msg)
    (h : validate env args = Except.error (code, m)) :
    syncCmd env config syncConfig args results = Result.exited code m := by
  simp only [syncCmd, h]

/-- C9 amended: with fewer than two positional arguments `syncCmd` exits with code 1; with
two or more it starts the pipeline if and only if both URLs parse, the source scheme is
empty or `file`, a source with scheme `file` has an empty host, the destination scheme is
`s3`, and the absolute source path can be computed; in every other case it exits with code
2, before the walk starts and so before any file is discovered or transferred -/
theorem syncCmd_validation (env : Env) (config : Config) (syncConfig : SyncConfig)
    (results : Nat → Outcome) :
    (∀ args : List GoString, args.length < 2 →
      syncCmd env config syncConfig args results = Result.exited 1 Msg.Usage)
    ∧ ∀ (arg0 arg1 : GoString) (rest : List GoString),
        ((syncCmd env config syncConfig (arg0 :: arg1 :: rest) results).proceeded = true ↔
          ∃ (src dest : URL) (srcPath : GoString),
            env.Parse arg0 = Except.ok src ∧ env.Parse arg1 = Except.ok dest
              ∧ urlsAccepted src dest ∧ env.Abs src.Path = Except.ok srcPath)
        ∧ ((syncCmd env config syncConfig (arg0 :: arg1 :: rest) results).proceeded = true
          ∨ ∃ m : Msg,
            syncCmd env config syncConfig (arg0 :: arg1 :: rest) results = Result.exited 2 m) := by
  refine ⟨fun args h => syncCmd_exited_of_error env config syncConfig args results 1 _
    (validate_short env args h), ?_⟩
  intro arg0 arg1 rest
  rcases validate_two env arg0 arg1 rest with ⟨src, dest, srcPath, hc, hv⟩ | ⟨hn, m, hv⟩
  · have hp := syncCmd_proceeded_of_ok env config syncConfig _ results _ hv
    exact ⟨⟨fun _ => ⟨src, dest, srcPath, hc⟩, fun _ => hp⟩, Or.inl hp⟩
  · have he := syncCmd_exited_of_error env config syncConfig _ results 2 m hv
    refine ⟨⟨fun hp => ?_, fun hc => absurd hc hn⟩, Or.inr ⟨m, he⟩⟩
    rw [he] at hp
    exact absurd hp (by simp [Result.proceeded])

/-- Witness of C9 amended: no argument gives exit code 1, and the sample command line
starts the pipeline -/
theorem syncCmd_validation_witness :
    ([] : List GoString).length < 2
    ∧ syncCmd sampleEnv quietConfig { DeleteSource := false, Excludes := [] } [] (fun _ => allOk) =
        Result.exited 1 Msg.Usage
    ∧ ((syncCmd sampleEnv quietConfig { DeleteSource := false, Excludes := [] }
          (ascii "/src" :: ascii "s3://bucket/data" :: []) (fun _ => allOk)).proceeded = true ↔
        ∃ (src dest : URL) (srcPath : GoString),
          sampleEnv.Parse (ascii "/src") = Except.ok src
            ∧ sampleEnv.Parse (ascii "s3://bucket/data") = Except.ok dest
            ∧ urlsAccepted src dest ∧ sampleEnv.Abs src.Path = Except.ok srcPath) :=
  ⟨by decide,
    (syncCmd_validation sampleEnv quietConfig { DeleteSource := false, Excludes := [] }
      (fun _ => allOk)).1 [] (by decide),
    ((syncCmd_validation sampleEnv quietConfig { DeleteSource := false, Excludes := [] }
      (fun _ => allOk)).2 (ascii "/src") (ascii "s3://bucket/data") []).1⟩

end Cync
